import Mathlib

/-!
# HieraChain: verification of spec claims against the source

Shallow embedding of the parts of the HieraChain repository that the
frozen claims are about:

* `hierarchical/hierarchy_manager.py` (HierarchyManager) — embedded from source.
* `adapters/storage/file_storage.py` (FileStorageAdapter) — embedded from source.
* `hierachain/security/sanitization.py` — embedded from source.
* MainChain / SubChain / DomainChain / BFTConsensus — their implementation
  modules are not in the provided source tree (only their callers and tests
  are); they are modelled from the specification, each such definition is
  marked `Modelled from the spec:`.

Python strings are modelled as `List Char` where substring structure
matters and as `String` where they are only compared; floats such as
timestamps are modelled as `Nat` ticks threaded through as a `now`
parameter; Python `dict`s (insertion ordered) are modelled as association
lists `List (String × α)`.
-/

namespace HieraChain

/-! ## Sanitization (`hierachain/security/sanitization.py`) -/

/-- The character class `[\\/:*?"<>|]` of the filename branch of
`sanitize_string` (source line `re.sub(r"[\\/:*?\"<>|]", "_", result)`). -/
def isFilenameDangerChar (c : Char) : Bool :=
  c == '\\' || c == '/' || c == ':' || c == '*' || c == '?' ||
  c == '"' || c == '<' || c == '>' || c == '|'

/-- Python `str.replace("..", "_")`: non-overlapping left-to-right
replacement of the two-character pattern `..` by `_`. -/
def replaceDotDot : List Char → List Char
  | [] => []
  | [c] => [c]
  | c₁ :: c₂ :: rest =>
    if c₁ = '.' ∧ c₂ = '.' then '_' :: replaceDotDot rest
    else c₁ :: replaceDotDot (c₂ :: rest)

/-- `sanitize_string(value, "filename")` from
`hierachain/security/sanitization.py`: for context `"filename"` the
`general`/`html` and `log` branches are skipped by their guards, and the
function first substitutes `_` for every character of the dangerous class
and then replaces every occurrence of `".."` by `"_"`. -/
def sanitizeStringFilename (value : List Char) : List Char :=
  replaceDotDot (value.map fun c => if isFilenameDangerChar c then '_' else c)

/-- A Python value passed to `is_safe_input`: a string, or anything that
fails the `isinstance(value, str)` check. -/
inductive PyValue where
  | str (s : List Char)
  | nonStr
deriving DecidableEq

/-- `is_safe_input(value, max_length)` from
`hierachain/security/sanitization.py`.  Non-strings return
`(True, "Not a string")`; strings longer than `max_length` return
`(False, reason)`; otherwise the dangerous-pattern loop only calls
`logger.warning` (it contains no `return`, `raise` or assignment) and the
function returns `(True, "Input accepted")`. -/
def is_safe_input (value : PyValue) (maxLength : Nat) : Bool × String :=
  match value with
  | .nonStr => (true, "Not a string")
  | .str s =>
    if s.length > maxLength then
      (false, "Input exceeds maximum length")
    else
      (true, "Input accepted")

/-! ## Blocks and hash chains

Modelled from the spec: the `HashChain` module is not in the provided
source tree.  Spec §3: `hash = H(index, previous_hash, timestamp, nonce,
serialize(events))`, genesis has `previous_hash = "0"*64` and `index = 0`.
Hex digests are modelled as natural numbers and `H` as a concrete
executable mixing function. -/

/-- Hash of a string, modelled as a polynomial fold over its characters. -/
def strHash (s : String) : Nat :=
  s.data.foldl (fun a c => a * 131 + c.toNat) 7

/-- A block of a hash chain, generic in the event payload type (SubChain
blocks hold domain events, MainChain blocks hold proof-submission
events). -/
structure Block (α : Type) where
  index : Nat
  previousHash : Nat
  timestamp : Nat
  nonce : Nat
  events : List α
  hash : Nat
deriving DecidableEq

/-- Modelled from the spec: the block hash function
`H(index, previous_hash, timestamp, nonce, serialize(events))`, with a
caller-supplied hash for single events. -/
def computeBlockHash (eventHash : α → Nat) (index previousHash timestamp nonce : Nat)
    (events : List α) : Nat :=
  events.foldl (fun a e => a * 1000003 + eventHash e)
    ((((5381 * 1000003 + index) * 1000003 + previousHash) * 1000003 + timestamp)
      * 1000003 + nonce)

/-- Modelled from the spec: the fixed genesis block (`index = 0`,
`previous_hash = "0"*64`). -/
def genesisBlock (eventHash : α → Nat) (now : Nat) : Block α :=
  { index := 0, previousHash := 0, timestamp := now, nonce := 0, events := [],
    hash := computeBlockHash eventHash 0 0 now 0 [] }

/-- Modelled from the spec: `create_block(pendingEvents)` — `index =
len(chain)`, `previous_hash = latest.hash`, hash recomputed over all
fields (spec §4.1). -/
def createBlock (eventHash : α → Nat) (chainLen : Nat) (prevHash : Nat) (now : Nat)
    (events : List α) : Block α :=
  { index := chainLen, previousHash := prevHash, timestamp := now, nonce := 0,
    events := events,
    hash := computeBlockHash eventHash chainLen prevHash now 0 events }

/-- Walk of the non-genesis part of a chain, re-verifying every link and
every stored hash. -/
def chainValidFrom (eventHash : α → Nat) (prevHash : Nat) (idx : Nat) :
    List (Block α) → Bool
  | [] => true
  | b :: rest =>
    b.previousHash == prevHash && b.index == idx &&
    b.hash == computeBlockHash eventHash b.index b.previousHash b.timestamp b.nonce b.events &&
    chainValidFrom eventHash b.hash (idx + 1) rest

/-- Modelled from the spec: `is_chain_valid()` — O(n) walk re-verifying
every link and every hash, any mismatch anywhere makes the whole chain
invalid (spec §4.1); `chain[0]` must be the genesis shape (spec §3). -/
def isChainValid (eventHash : α → Nat) (chain : List (Block α)) : Bool :=
  match chain with
  | [] => false
  | g :: rest =>
    g.index == 0 && g.previousHash == 0 &&
    g.hash == computeBlockHash eventHash g.index g.previousHash g.timestamp g.nonce g.events &&
    chainValidFrom eventHash g.hash 1 rest

/-! ## Domain events, MainChain and SubChain

Modelled from the spec: the `main_chain.py` / `sub_chain.py` /
`domain_chain.py` modules are not in the provided source tree; only
`hierarchy_manager.py` (their caller) and their tests are.  The shapes
below follow spec §3 and §4.3. -/

/-- A SubChain domain event (spec §3): `entity_id`, `event_type`,
timestamp, open details map. -/
structure Event where
  entityId : String
  eventType : String
  timestamp : Nat
  details : List (String × String)
deriving DecidableEq

/-- Hash of a domain event. -/
def eventHash (e : Event) : Nat :=
  (strHash e.entityId * 1000003 + strHash e.eventType) * 1000003 + e.timestamp

/-- A `proof_submission` event stored on the MainChain (spec §3:
`{sub_chain_name, proof_hash, metadata}`; §4.3: metadata
`{domain_type, latest_block_index, total_blocks}`). -/
structure ProofEvent where
  subChainName : String
  proofHash : Nat
  domainType : String
  latestBlockIndex : Nat
  totalBlocks : Nat
deriving DecidableEq

/-- Hash of a proof-submission event. -/
def proofEventHash (p : ProofEvent) : Nat :=
  (strHash p.subChainName * 1000003 + p.proofHash) * 1000003 + p.latestBlockIndex

/-- Modelled from the spec: MainChain state — root hash chain plus the
registered-sub-chain set, the pending proof events, and `proof_count`
(spec §4.3). -/
structure MainChain where
  name : String
  chain : List (Block ProofEvent)
  pendingEvents : List ProofEvent
  registered : List String
  proofCount : Nat
deriving DecidableEq

namespace MainChain

/-- Modelled from the spec: a fresh MainChain with only the genesis
block. -/
def init (name : String) (now : Nat) : MainChain :=
  { name := name, chain := [genesisBlock proofEventHash now], pendingEvents := [],
    registered := [], proofCount := 0 }

/-- Modelled from the spec: `register_sub_chain(name, metadata) -> bool` —
false if the name is already registered (no re-registration), otherwise
records the name (spec §4.3). -/
def registerSubChain (mc : MainChain) (name : String) : Bool × MainChain :=
  if name ∈ mc.registered then (false, mc)
  else (true, { mc with registered := mc.registered ++ [name] })

/-- Modelled from the spec: `add_proof(name, hash, metadata) -> bool` —
false if the name is unregistered; otherwise appends a `proof_submission`
event to the pending list and increments `proof_count` (spec §4.3).  The
metadata built by `submit_proof_to_main` is well-formed by construction,
so schema validation always passes here. -/
def addProof (mc : MainChain) (p : ProofEvent) : Bool × MainChain :=
  if p.subChainName ∈ mc.registered then
    (true, { mc with pendingEvents := mc.pendingEvents ++ [p],
                     proofCount := mc.proofCount + 1 })
  else (false, mc)

/-- Modelled from the spec: `verify_proof(hash, name) -> bool` — scans
committed events only; true iff a matching `proof_submission` event
exists; pending proofs always verify false (spec §4.3). -/
def verifyProof (mc : MainChain) (hash : Nat) (name : String) : Bool :=
  mc.chain.any fun b =>
    b.events.any fun p => p.proofHash == hash && p.subChainName == name

/-- `is_chain_valid()` on the MainChain. -/
def isChainValid (mc : MainChain) : Bool :=
  HieraChain.isChainValid proofEventHash mc.chain

/-- The hash of the latest block (`chain[-1]`; the chain always holds at
least the genesis block). -/
def latestBlock (mc : MainChain) : Block ProofEvent :=
  mc.chain.getLastD (genesisBlock proofEventHash 0)

/-- Modelled from the spec: `finalize_block()` — swaps the pending-event
list into a new block and appends it (spec §4.1); returns the new block,
or `none` when there was nothing pending (`finalize_main_chain_block`
returns an optional result). -/
def finalizeMainChainBlock (mc : MainChain) (now : Nat) :
    Option (Block ProofEvent) × MainChain :=
  match mc.pendingEvents with
  | [] => (none, mc)
  | evs =>
    let b := createBlock proofEventHash mc.chain.length (latestBlock mc).hash now evs
    (some b, { mc with chain := mc.chain ++ [b], pendingEvents := [] })

end MainChain

/-- Modelled from the spec: SubChain/DomainChain state — domain hash
chain, pending events, main-chain connection flag, counters, and the
index of the last block whose proof was submitted (spec §4.3, §9: proof
re-submission with no new committed blocks is a no-op). -/
structure SubChain where
  name : String
  domainType : String
  chain : List (Block Event)
  pendingEvents : List Event
  connectedToMain : Bool
  completedOperations : Nat
  proofSubmissionInterval : Nat
  lastProofIndex : Option Nat
deriving DecidableEq

namespace SubChain

/-- Modelled from the spec: `DomainChain(name, domain_type)` — a fresh
domain SubChain holding only the genesis block. -/
def init (name domainType : String) (now : Nat) : SubChain :=
  { name := name, domainType := domainType,
    chain := [genesisBlock eventHash now], pendingEvents := [],
    connectedToMain := false, completedOperations := 0,
    proofSubmissionInterval := 60, lastProofIndex := none }

/-- The latest block (`chain[-1]`). -/
def latestBlock (sc : SubChain) : Block Event :=
  sc.chain.getLastD (genesisBlock eventHash 0)

/-- `is_chain_valid()` on a SubChain. -/
def isChainValid (sc : SubChain) : Bool :=
  HieraChain.isChainValid eventHash sc.chain

/-- Modelled from the spec: `get_entity_history(entity_id)` — linear scan
over committed blocks collecting the events whose `entity_id` matches
(spec §4.1 `get_events_by_entity`). -/
def getEntityHistory (sc : SubChain) (entityId : String) : List Event :=
  sc.chain.foldl (fun acc b => acc ++ b.events.filter (·.entityId == entityId)) []

/-- Modelled from the spec: `finalize_sub_chain_block()` — swaps the
pending-event list into a new block and appends it; nothing happens when
no events are pending (spec §4.1). -/
def finalizeSubChainBlock (sc : SubChain) (now : Nat) : SubChain :=
  match sc.pendingEvents with
  | [] => sc
  | evs =>
    let b := createBlock eventHash sc.chain.length sc.latestBlock.hash now evs
    { sc with chain := sc.chain ++ [b], pendingEvents := [] }

/-- Modelled from the spec: `connect_to_main_chain(main)` — registers the
SubChain (name + metadata) with the MainChain and remembers the
connection (spec §4.3). -/
def connectToMainChain (sc : SubChain) (mc : MainChain) :
    Bool × SubChain × MainChain :=
  match mc.registerSubChain sc.name with
  | (true, mc') => (true, { sc with connectedToMain := true }, mc')
  | (false, _) => (false, sc, mc)

/-- Modelled from the spec: `submit_proof_to_main(main)` — computes the
proof hash over the latest finalized block, builds the metadata
`{domain_type, latest_block_index, total_blocks}` and calls
`main.add_proof`; re-submitting when no new block was committed since the
last submission is a no-op returning false (spec §4.3, §9). -/
def submitProofToMain (sc : SubChain) (mc : MainChain) :
    Bool × SubChain × MainChain :=
  let latest := sc.latestBlock
  if sc.lastProofIndex == some latest.index then (false, sc, mc)
  else
    match mc.addProof
      { subChainName := sc.name, proofHash := latest.hash,
        domainType := sc.domainType, latestBlockIndex := latest.index,
        totalBlocks := sc.chain.length } with
    | (true, mc') => (true, { sc with lastProofIndex := some latest.index }, mc')
    | (false, mc') => (false, sc, mc')

/-- Modelled from the spec: the fields of `get_domain_statistics()` that
`hierarchy_manager.py` reads (`total_blocks`, `total_events`,
`unique_entities`, `completed_operations`, `chain_valid`,
`main_chain_connected`). -/
structure DomainStatistics where
  totalBlocks : Nat
  totalEvents : Nat
  uniqueEntities : Nat
  completedOperations : Nat
  chainValid : Bool
  mainChainConnected : Bool
deriving DecidableEq

/-- Modelled from the spec: `get_domain_statistics()` — read-only
aggregates over the committed chain. -/
def getDomainStatistics (sc : SubChain) : DomainStatistics :=
  let allEvents := sc.chain.foldl (fun acc b => acc ++ b.events) []
  { totalBlocks := sc.chain.length
    totalEvents := allEvents.length
    uniqueEntities := (allEvents.map (·.entityId)).dedup.length
    completedOperations := sc.completedOperations
    chainValid := sc.isChainValid
    mainChainConnected := sc.connectedToMain }

end SubChain

/-! ## HierarchyManager (`hierarchical/hierarchy_manager.py`, from source)

Python `dict`s keep insertion order, so `self.sub_chains` is modelled as
an association list; `time.time()` is modelled as a `now : Nat` argument
threaded into the operations that read the clock. -/

/-- Association-list lookup for the `sub_chains` dict
(`self.sub_chains.get(name)` / `name in self.sub_chains`). -/
def lookupKey (l : List (String × α)) (k : String) : Option α :=
  match l with
  | [] => none
  | (k', v) :: rest => if k' == k then some v else lookupKey rest k

/-- Association-list deletion for `del self.sub_chains[name]` (keys are
unique in a Python dict, so removing the first match is deletion). -/
def eraseKey (l : List (String × α)) (k : String) : List (String × α) :=
  match l with
  | [] => []
  | (k', v) :: rest => if k' == k then rest else (k', v) :: eraseKey rest k

/-- State of `HierarchyManager` (`__init__`, source lines 27–43): the
MainChain, the `sub_chains` registry, the auto-proof-submission settings
and the `system_stats` counters. -/
structure HierarchyManager where
  mainChain : MainChain
  subChains : List (String × SubChain)
  autoProofSubmission : Bool
  proofSubmissionInterval : Nat
  totalOperations : Nat
  totalProofs : Nat
  systemStartedAt : Nat
  systemUptime : Nat
deriving DecidableEq

namespace HierarchyManager

/-- `HierarchyManager(main_chain_name)` (source lines 27–43). -/
def init (mainChainName : String) (now : Nat) : HierarchyManager :=
  { mainChain := MainChain.init mainChainName now, subChains := [],
    autoProofSubmission := true, proofSubmissionInterval := 60,
    totalOperations := 0, totalProofs := 0,
    systemStartedAt := now, systemUptime := 0 }

/-- `create_sub_chain(name, domain_type, metadata)` (source lines 45–82):
returns `False` if the name is already registered; otherwise builds a
`DomainChain`, connects it to the MainChain, stores it and configures the
proof-submission interval.  The `connection_metadata` dict the source
builds is never passed anywhere (dead local), so the `metadata` argument
does not appear in the model. -/
def createSubChain (hm : HierarchyManager) (name domainType : String) (now : Nat) :
    Bool × HierarchyManager :=
  if (lookupKey hm.subChains name).isSome then (false, hm)
  else
    let sc := SubChain.init name domainType now
    match sc.connectToMainChain hm.mainChain with
    | (true, sc', mc') =>
      let sc'' :=
        if hm.autoProofSubmission then
          { sc' with proofSubmissionInterval := hm.proofSubmissionInterval }
        else sc'
      (true, { hm with mainChain := mc', subChains := hm.subChains ++ [(name, sc'')] })
    | (false, _, _) => (false, hm)

/-- `remove_sub_chain(name)` (source lines 96–118): `False` if the name
is not registered; otherwise, when the sub-chain has pending events,
finalizes them and submits a last proof, then deletes the sub-chain from
the registry and returns `True`. -/
def removeSubChain (hm : HierarchyManager) (name : String) (now : Nat) :
    Bool × HierarchyManager :=
  match lookupKey hm.subChains name with
  | none => (false, hm)
  | some sc =>
    let mc' :=
      if sc.pendingEvents.isEmpty then hm.mainChain
      else ((sc.finalizeSubChainBlock now).submitProofToMain hm.mainChain).2.2
    (true, { hm with mainChain := mc', subChains := eraseKey hm.subChains name })

/-- `trace_entity_across_chains(entity_id)` (source lines 164–181): for
every registered sub-chain, its entity history is looked up and recorded
under the chain's name when it is non-empty. -/
def traceEntityAcrossChains (hm : HierarchyManager) (entityId : String) :
    List (String × List Event) :=
  hm.subChains.foldl
    (fun acc p =>
      let entityEvents := p.2.getEntityHistory entityId
      if entityEvents.isEmpty then acc else acc ++ [(p.1, entityEvents)])
    []

/-- The loop body of `submit_all_proofs` (source lines 192–202), threaded
over the registry in order: finalize when pending events exist, submit
the proof, record the result, and count the successes that increment
`total_proofs`. -/
def submitProofsLoop (mc : MainChain) (now : Nat) :
    List (String × SubChain) →
    List (String × Bool) × List (String × SubChain) × MainChain × Nat
  | [] => ([], [], mc, 0)
  | (n, sc) :: rest =>
    let sc1 := if sc.pendingEvents.isEmpty then sc else sc.finalizeSubChainBlock now
    let r := sc1.submitProofToMain mc
    let rec' := submitProofsLoop r.2.2 now rest
    ((n, r.1) :: rec'.1, (n, r.2.1) :: rec'.2.1, rec'.2.2.1,
      (if r.1 then 1 else 0) + rec'.2.2.2)

/-- `submit_all_proofs()` (source lines 183–204). -/
def submitAllProofs (hm : HierarchyManager) (now : Nat) :
    List (String × Bool) × HierarchyManager :=
  let r := submitProofsLoop hm.mainChain now hm.subChains
  (r.1, { hm with subChains := r.2.1, mainChain := r.2.2.1,
                  totalProofs := hm.totalProofs + r.2.2.2 })

/-- `_check_system_integrity()` (source lines 263–279): MainChain valid
and every registered SubChain valid. -/
def checkSystemIntegrity (hm : HierarchyManager) : Bool :=
  if !hm.mainChain.isChainValid then false
  else hm.subChains.all fun p => p.2.isChainValid

/-- One entry of `sub_chain_details` in the integrity report (source
lines 232–240). -/
structure SubChainDetail where
  domainType : String
  blocks : Nat
  events : Nat
  entities : Nat
  operations : Nat
  chainValid : Bool
  mainChainConnected : Bool
deriving DecidableEq

/-- The integrity report returned by `get_system_integrity_report()`
(source lines 215–261); the `main_chain_report` sub-dict comes from the
spec-modelled MainChain and is summarized by its validity. -/
structure SystemIntegrityReport where
  mainChainValid : Bool
  totalSubChains : Nat
  totalSubChainBlocks : Nat
  totalSubChainEvents : Nat
  systemUptime : Nat
  autoProofSubmission : Bool
  subChainDetails : List (String × SubChainDetail)
  integrityStatus : String
deriving DecidableEq

/-- `get_system_integrity_report()` (source lines 215–261): per-sub-chain
details from `get_domain_statistics()`, totals, refreshed uptime, and
`integrity_status` = `"healthy"` when `_check_system_integrity()` holds,
else `"compromised"`.  The method also writes the refreshed uptime back
into `system_stats`, hence the returned state. -/
def getSystemIntegrityReport (hm : HierarchyManager) (now : Nat) :
    SystemIntegrityReport × HierarchyManager :=
  let details := hm.subChains.map fun p =>
    let stats := p.2.getDomainStatistics
    (p.1,
      { domainType := p.2.domainType, blocks := stats.totalBlocks,
        events := stats.totalEvents, entities := stats.uniqueEntities,
        operations := stats.completedOperations, chainValid := stats.chainValid,
        mainChainConnected := stats.mainChainConnected : SubChainDetail })
  let uptime := now - hm.systemStartedAt
  ({ mainChainValid := hm.mainChain.isChainValid
     totalSubChains := hm.subChains.length
     totalSubChainBlocks :=
       (hm.subChains.map fun p => p.2.getDomainStatistics.totalBlocks).sum
     totalSubChainEvents :=
       (hm.subChains.map fun p => p.2.getDomainStatistics.totalEvents).sum
     systemUptime := uptime
     autoProofSubmission := hm.autoProofSubmission
     subChainDetails := details
     integrityStatus := if hm.checkSystemIntegrity then "healthy" else "compromised" },
   { hm with systemUptime := uptime })

/-- The result dict of `validate_cross_chain_consistency()` (source lines
369–375). -/
structure ConsistencyValidation where
  timestamp : Nat
  mainChainValid : Bool
  subChainValidation : List (String × Bool)
  proofConsistency : List (String × Bool)
  overallConsistent : Bool
deriving DecidableEq

/-- `validate_cross_chain_consistency()` (source lines 362–393): records
MainChain validity, per-sub-chain validity (clearing
`overall_consistent` on any failure), and — for each sub-chain whose
chain has blocks beyond the genesis — whether
`main_chain.verify_proof(latest_block.hash, name)` holds.  Every call the
source makes is a read, so the manager state is returned unchanged. -/
def validateCrossChainConsistency (hm : HierarchyManager) (now : Nat) :
    ConsistencyValidation × HierarchyManager :=
  ({ timestamp := now
     mainChainValid := hm.mainChain.isChainValid
     subChainValidation := hm.subChains.map fun p => (p.1, p.2.isChainValid)
     proofConsistency :=
       hm.subChains.foldl
         (fun acc p =>
           if p.2.chain.length > 1 then
             acc ++ [(p.1, hm.mainChain.verifyProof p.2.latestBlock.hash p.1)]
           else acc)
         []
     overallConsistent := hm.subChains.all fun p => p.2.isChainValid },
   hm)

end HierarchyManager

/-! ## BFT consensus network construction

Modelled from the spec: `hierarchical/consensus/bft_consensus.py` is not
in the provided source tree (only its unit test is).  Spec §4.5: setup
requires `n = |all_nodes| ≥ 3f+1`, otherwise network construction fails
with a consensus error rejecting the whole network. -/

/-- The phases of the BFT state machine (spec §4.5); a fresh node is
`idle` (`bft.state.value == "idle"` in the unit test). -/
inductive BFTPhase where
  | idle | prePrepare | prepare | commit | committed
deriving DecidableEq

/-- The typed error raised when a BFT network is rejected (spec §7). -/
structure ConsensusError where
  message : String
deriving DecidableEq

/-- Modelled from the spec: per-node BFT state
`{node_id, all_nodes (sorted), n, f, view, sequence_number, phase}`
(spec §3); the unit test checks `view = 0`, `sequence_number = 0`,
`state = idle`, `n = len(node_ids)` after construction. -/
structure BFTConsensus where
  nodeId : String
  allNodes : List String
  n : Nat
  f : Nat
  view : Nat
  sequenceNumber : Nat
  phase : BFTPhase
deriving DecidableEq

/-- Modelled from the spec: `BFTConsensus(node_id, node_ids, f)` — fails
with a `ConsensusError` when `n < 3f+1`, otherwise starts idle in view 0
with the node list sorted (spec §4.5). -/
def mkBFTConsensus (nodeId : String) (nodeIds : List String) (f : Nat) :
    Except ConsensusError BFTConsensus :=
  if nodeIds.length < 3 * f + 1 then
    .error ⟨"BFT network requires at least 3f+1 nodes"⟩
  else
    .ok { nodeId := nodeId, allNodes := nodeIds.insertionSort (· ≤ ·),
          n := nodeIds.length, f := f, view := 0, sequenceNumber := 0,
          phase := .idle }

/-- The loop of `create_bft_network` building one `BFTConsensus` per node
config, propagating any constructor failure. -/
def buildBftNodes (configs : List String) (allNodes : List String) (f : Nat) :
    Except ConsensusError (List (String × BFTConsensus)) :=
  match configs with
  | [] => .ok []
  | nid :: rest => do
    let node ← mkBFTConsensus nid allNodes f
    let others ← buildBftNodes rest allNodes f
    .ok ((nid, node) :: others)

/-- Modelled from the spec: `create_bft_network(node_configs,
fault_tolerance)` — rejects the whole network with a `ConsensusError`
when `n < 3f+1`, otherwise returns the map node-id → `BFTConsensus`
with one entry per config (the unit test checks `len(network) == 4`). -/
def create_bft_network (nodeIds : List String) (faultTolerance : Nat) :
    Except ConsensusError (List (String × BFTConsensus)) :=
  if nodeIds.length < 3 * faultTolerance + 1 then
    .error ⟨"BFT network requires at least 3f+1 nodes"⟩
  else
    buildBftNodes nodeIds nodeIds faultTolerance

/-! ## FileStorageAdapter (`adapters/storage/file_storage.py`, from source)

The block directory `blocks/<chain_name>/` holds one JSON file
`block_<index>.json` per block index; a directory is modelled as an
association list from the parsed file-name index to the stored JSON
content, and the adapter as an association list from chain name to
directory (a missing key is a missing directory). -/

/-- The JSON content of a block as handed to `store_block`: its `index`
field plus the rest of the document, opaque here. -/
structure BlockData where
  index : Nat
  body : String
deriving DecidableEq

/-- A stored block file: the block JSON plus the `stored_at` timestamp
that `store_block` adds and `get_chain_blocks` pops. -/
structure StoredBlock where
  data : BlockData
  storedAt : Nat
deriving DecidableEq

/-- A chain's block directory: parsed file-name index ↦ file content. -/
abbrev BlockDir := List (Nat × StoredBlock)

/-- The adapter's block storage: chain name ↦ block directory. -/
abbrev FileStorage := List (String × BlockDir)

/-- The comparison key of `sorted(..., key=lambda x: int(x.stem.split('_')[1]))`:
file-name index order. -/
def fileIdxLE (a b : Nat × StoredBlock) : Prop := a.1 ≤ b.1

instance : DecidableRel fileIdxLE := fun a b => Nat.decLe a.1 b.1

instance : IsTotal (Nat × StoredBlock) fileIdxLE :=
  ⟨fun a b => Nat.le_total a.1 b.1⟩

instance : IsTrans (Nat × StoredBlock) fileIdxLE :=
  ⟨fun _ _ _ => Nat.le_trans⟩

/-- `get_chain_blocks(chain_name, limit, offset)` (source lines 168–199):
a missing chain directory yields `[]`; otherwise the block files are
sorted by their parsed index, `if offset:` drops the first `offset`
files, `if limit:` keeps the first `limit` files (both guards are Python
truthiness, so `0` disables them), and each remaining file is loaded with
its `stored_at` key popped. -/
def getChainBlocks (fs : FileStorage) (chainName : String)
    (limit : Option Nat) (offset : Nat) : List BlockData :=
  match lookupKey fs chainName with
  | none => []
  | some files =>
    let sortedFiles := files.insertionSort fileIdxLE
    let afterOffset := if offset ≠ 0 then sortedFiles.drop offset else sortedFiles
    let limited :=
      match limit with
      | none => afterOffset
      | some l => if l ≠ 0 then afterOffset.take l else afterOffset
    limited.map fun p => p.2.data

/-! ## Derived notions and concrete states used by the claim theorems -/

/-- Ascending block-index order on returned block documents. -/
def blockIdxLE (a b : BlockData) : Prop := a.index ≤ b.index

/-- The number of blocks the `if limit:` guard keeps: a limit of `0` (or
none) is falsy in Python and disables truncation. -/
def limitCount (limit : Option Nat) (n : Nat) : Nat :=
  match limit with
  | none => n
  | some l => if l = 0 then n else l

/-- A concrete two-block store (files listed out of index order) used by
the C8 counterexample and witness. -/
def fsC8 : FileStorage :=
  [("c", [(1, ⟨⟨1, "b1"⟩, 5⟩), (0, ⟨⟨0, "b0"⟩, 5⟩)])]

/-- A concrete manager holding one freshly created sub-chain `"alpha"`
(genesis only, no pending events). -/
def hmOneChain : HierarchyManager :=
  ((HierarchyManager.init "Main" 0).createSubChain "alpha" "logistics" 1).2

/-- A concrete connected sub-chain `"alpha"` with one pending event. -/
def scAlphaPending : SubChain :=
  { SubChain.init "alpha" "logistics" 1 with
    connectedToMain := true,
    pendingEvents :=
      [{ entityId := "e1", eventType := "operation_start",
         timestamp := 2, details := [] }] }

/-- A concrete manager whose sub-chain `"alpha"` has one pending event
(used to witness the proof-submitting path of `remove_sub_chain`). -/
def hmPendingChain : HierarchyManager :=
  { mainChain := ((MainChain.init "Main" 0).registerSubChain "alpha").2,
    subChains := [("alpha", scAlphaPending)],
    autoProofSubmission := true, proofSubmissionInterval := 60,
    totalOperations := 0, totalProofs := 0,
    systemStartedAt := 0, systemUptime := 0 }

/-! ## Lemmas about `replaceDotDot` -/

/-- Every character of `replaceDotDot l` is `'_'` or a character of `l`. -/
theorem mem_replaceDotDot : ∀ (l : List Char) (c : Char),
    c ∈ replaceDotDot l → c = '_' ∨ c ∈ l
  | [], c, h => by simp [replaceDotDot] at h
  | [c'], c, h => by
    simp [replaceDotDot] at h
    exact Or.inr (by simp [h])
  | c₁ :: c₂ :: rest, c, h => by
    rw [replaceDotDot] at h
    by_cases hd : c₁ = '.' ∧ c₂ = '.'
    · rw [if_pos hd] at h
      rcases List.mem_cons.mp h with h1 | h2
      · exact Or.inl h1
      · rcases mem_replaceDotDot rest c h2 with h3 | h4
        · exact Or.inl h3
        · exact Or.inr (by simp [h4])
    · rw [if_neg hd] at h
      rcases List.mem_cons.mp h with h1 | h2
      · exact Or.inr (by simp [h1])
      · rcases mem_replaceDotDot (c₂ :: rest) c h2 with h3 | h4
        · exact Or.inl h3
        · exact Or.inr (by simp [List.mem_cons.mp h4])

/-- `replaceDotDot` keeps the head of a list that does not start with a
dot. -/
theorem head_replaceDotDot (c : Char) (rest : List Char) (hc : ¬ c = '.') :
    (replaceDotDot (c :: rest)).head? = some c := by
  cases rest with
  | nil => rfl
  | cons d t => rw [replaceDotDot, if_neg fun h => hc h.1]; rfl

/-- After `replaceDotDot`, no two adjacent characters are both dots. -/
theorem chain_replaceDotDot : ∀ l : List Char,
    (replaceDotDot l).Chain' (fun a b => ¬(a = '.' ∧ b = '.'))
  | [] => by simp [replaceDotDot]
  | [_] => by simp [replaceDotDot]
  | c₁ :: c₂ :: rest => by
    by_cases hd : c₁ = '.' ∧ c₂ = '.'
    · rw [replaceDotDot, if_pos hd]
      refine List.chain'_cons'.mpr ⟨?_, chain_replaceDotDot rest⟩
      intro b _
      rintro ⟨h1, _⟩
      exact absurd h1 (by decide)
    · rw [replaceDotDot, if_neg hd]
      refine List.chain'_cons'.mpr ⟨?_, chain_replaceDotDot (c₂ :: rest)⟩
      intro b hb
      rintro ⟨h1, h2⟩
      have hc2 : ¬ c₂ = '.' := fun h => hd ⟨h1, h⟩
      rw [head_replaceDotDot c₂ rest hc2] at hb
      have hb' : c₂ = b := by simpa using hb
      exact hc2 (hb' ▸ h2)

/-! ## Claim theorems -/

/-- C9: for every input string, `sanitize_string(value, "filename")`
returns a string containing none of the characters
`\\ / : * ? " < > |` and no occurrence of the substring `".."`. -/
theorem c9_sanitize_filename_safe (value : List Char) :
    (∀ c ∈ sanitizeStringFilename value, isFilenameDangerChar c = false) ∧
    (∀ l₁ l₂ : List Char, sanitizeStringFilename value ≠ l₁ ++ '.' :: '.' :: l₂) := by
  constructor
  · intro c hc
    rcases mem_replaceDotDot _ c hc with h | h
    · subst h; decide
    · rcases List.mem_map.mp h with ⟨a, _, rfl⟩
      by_cases hda : isFilenameDangerChar a
      · simp only [hda, if_true]; decide
      · rw [if_neg hda]
        exact Bool.not_eq_true _ ▸ Bool.of_not_eq_true hda
  · intro l₁ l₂ heq
    have hchain := chain_replaceDotDot
      (value.map fun c => if isFilenameDangerChar c then '_' else c)
    unfold sanitizeStringFilename at heq
    rw [heq] at hchain
    rcases List.chain'_append.mp hchain with ⟨_, h2, _⟩
    exact (List.chain'_cons.mp h2).1 ⟨rfl, rfl⟩

/-- Witness for C9 at the concrete input `"..\\"`: the sanitized result
`"__"` has no dangerous character and is not the string `".."`. -/
theorem c9_witness :
    isFilenameDangerChar '_' = false ∧
    sanitizeStringFilename ['.', '.', '\\'] ≠ ['.', '.'] :=
  ⟨(c9_sanitize_filename_safe ['.', '.', '\\']).1 '_' (by decide),
   (c9_sanitize_filename_safe ['.', '.', '\\']).2 [] []⟩

/-- C10: `is_safe_input(value, max_length)` rejects exactly the strings
longer than `max_length`; every other input — non-strings, and strings
with script tags, `javascript:` URIs or template expressions — is
accepted (dangerous patterns are only logged, never rejected). -/
theorem c10_is_safe_input_length_only (value : PyValue) (maxLength : Nat) :
    (is_safe_input value maxLength).1 = false ↔
      ∃ s, value = PyValue.str s ∧ s.length > maxLength := by
  cases value with
  | nonStr => simp [is_safe_input]
  | str s =>
    by_cases h : s.length > maxLength
    · simp [is_safe_input, h]
    · simp [is_safe_input, h]

/-- Building the nodes of a BFT network succeeds (with one entry per
config) whenever the node count satisfies the quorum bound checked by
each constructor. -/
theorem buildBftNodes_ok (configs : List String) (allNodes : List String) (f : Nat)
    (h : ¬ allNodes.length < 3 * f + 1) :
    ∃ net, buildBftNodes configs allNodes f = Except.ok net ∧
      net.length = configs.length := by
  induction configs with
  | nil => exact ⟨[], rfl, rfl⟩
  | cons nid rest ih =>
    rcases ih with ⟨net, hnet, hlen⟩
    refine ⟨(nid,
      { nodeId := nid, allNodes := allNodes.insertionSort (· ≤ ·),
        n := allNodes.length, f := f, view := 0, sequenceNumber := 0,
        phase := .idle }) :: net, ?_, by simp [hlen]⟩
    simp only [buildBftNodes, mkBFTConsensus, if_neg h, hnet]
    rfl

/-- C7: constructing a BFT network with node count `n` and fault
tolerance `f` fails with a `ConsensusError` whenever `n < 3f+1`
(rejecting the whole network) and succeeds, with one node per config,
whenever `n ≥ 3f+1`. -/
theorem c7_bft_network_quorum (nodeIds : List String) (f : Nat) :
    (nodeIds.length < 3 * f + 1 →
      ∃ e, create_bft_network nodeIds f = Except.error e) ∧
    (3 * f + 1 ≤ nodeIds.length →
      ∃ net, create_bft_network nodeIds f = Except.ok net ∧
        net.length = nodeIds.length) := by
  constructor
  · intro h
    exact ⟨⟨"BFT network requires at least 3f+1 nodes"⟩,
      by simp [create_bft_network, if_pos h]⟩
  · intro h
    have h' : ¬ nodeIds.length < 3 * f + 1 := Nat.not_lt.mpr h
    rcases buildBftNodes_ok nodeIds nodeIds f h' with ⟨net, hnet, hlen⟩
    exact ⟨net, by simp [create_bft_network, if_neg h', hnet], hlen⟩

/-- Witness for C7 at the claim's own examples: `f = 1` with 2 nodes is
rejected, `f = 1` with 4 nodes yields a 4-node network. -/
theorem c7_witness :
    (∃ e, create_bft_network ["node_1", "node_2"] 1 = Except.error e) ∧
    (∃ net,
      create_bft_network ["node_1", "node_2", "node_3", "node_4"] 1 =
        Except.ok net ∧ net.length = 4) :=
  ⟨(c7_bft_network_quorum ["node_1", "node_2"] 1).1 (by decide),
   (c7_bft_network_quorum ["node_1", "node_2", "node_3", "node_4"] 1).2 (by decide)⟩

/-- C8 (amended): `get_chain_blocks` returns the stored blocks of the
chain sorted in ascending block-index order, after dropping the first
`offset` blocks and keeping the first `limit` blocks when a positive
limit is given (a limit of `0` or `None` disables truncation); a chain
with no stored blocks yields `[]`. -/
theorem c8_get_chain_blocks (fs : FileStorage) (chain : String)
    (limit : Option Nat) (offset : Nat) :
    (lookupKey fs chain = none → getChainBlocks fs chain limit offset = []) ∧
    (∀ files : BlockDir, lookupKey fs chain = some files →
      (∀ p ∈ files, (p.2).data.index = p.1) →
      List.Sorted blockIdxLE (getChainBlocks fs chain limit offset) ∧
      (files.insertionSort fileIdxLE).Perm files ∧
      getChainBlocks fs chain limit offset =
        ((((files.insertionSort fileIdxLE).map fun p => p.2.data).drop offset).take
          (limitCount limit files.length))) := by
  constructor
  · intro h
    simp [getChainBlocks, h]
  · intro files hlk hidx
    have hperm := List.perm_insertionSort fileIdxLE files
    have hlen : (files.insertionSort fileIdxLE).length = files.length :=
      hperm.length_eq
    have hsort : List.Sorted fileIdxLE (files.insertionSort fileIdxLE) :=
      List.sorted_insertionSort fileIdxLE files
    have hpair :
        (files.insertionSort fileIdxLE).Pairwise
          (fun a b => a.2.data.index ≤ b.2.data.index) := by
      refine hsort.imp_of_mem ?_
      intro a b ha hb hab
      have ha' : a ∈ files := (List.mem_insertionSort fileIdxLE).mp ha
      have hb' : b ∈ files := (List.mem_insertionSort fileIdxLE).mp hb
      rw [hidx a ha', hidx b hb']
      exact hab
    have hmapsort :
        List.Sorted blockIdxLE
          ((files.insertionSort fileIdxLE).map fun p => p.2.data) :=
      List.pairwise_map.mpr hpair
    have hout : getChainBlocks fs chain limit offset =
        ((((files.insertionSort fileIdxLE).map fun p => p.2.data).drop offset).take
          (limitCount limit files.length)) := by
      have hlenmap :
          (((files.insertionSort fileIdxLE).map fun p => p.2.data).drop
            offset).length ≤ files.length := by
        simp [hlen]
      by_cases ho : offset = 0 <;>
        cases limit with
        | none =>
          simp [getChainBlocks, hlk, ho, limitCount,
            List.take_of_length_le, hlenmap, List.map_take, List.map_drop]
        | some l =>
          by_cases hl : l = 0 <;>
            simp [getChainBlocks, hlk, ho, hl, limitCount,
              List.take_of_length_le, hlenmap, List.map_take, List.map_drop]
    refine ⟨?_, hperm, hout⟩
    rw [hout]
    exact List.Pairwise.sublist
      ((List.take_sublist _ _).trans (List.drop_sublist _ _)) hmapsort

/-- C8 counterexample: with a stored chain of two blocks, calling
`get_chain_blocks` with the explicit limit `0` returns both blocks — more
than `limit` blocks — because `if limit:` treats `0` as "no limit". -/
theorem c8_counterexample :
    (getChainBlocks fsC8 "c" (some 0) 0).length = 2 ∧
    ¬ (getChainBlocks fsC8 "c" (some 0) 0).length ≤ 0 := by
  constructor <;> decide

/-- Witness for C8 at the concrete store `fsC8`: the two out-of-order
block files come back sorted by index. -/
theorem c8_witness :
    List.Sorted blockIdxLE (getChainBlocks fsC8 "c" none 0) ∧
    getChainBlocks fsC8 "c" none 0 = [⟨0, "b0"⟩, ⟨1, "b1"⟩] := by
  have h := (c8_get_chain_blocks fsC8 "c" none 0).2
    [(1, ⟨⟨1, "b1"⟩, 5⟩), (0, ⟨⟨0, "b0"⟩, 5⟩)] rfl (by decide)
  exact ⟨h.1, by rw [h.2.2]; decide⟩

/-! ## C1/C3/C4/C6: HierarchyManager read paths -/

/-- `_check_system_integrity()` holds exactly when the MainChain and
every registered SubChain validate. -/
theorem checkSystemIntegrity_iff (hm : HierarchyManager) :
    hm.checkSystemIntegrity = true ↔
      (hm.mainChain.isChainValid = true ∧
        ∀ p ∈ hm.subChains, p.2.isChainValid = true) := by
  unfold HierarchyManager.checkSystemIntegrity
  by_cases h : hm.mainChain.isChainValid <;> simp [h, List.all_eq_true]

/-- C1: the `integrity_status` field of `get_system_integrity_report()`
is `"healthy"` iff the MainChain and every registered SubChain validate,
and is `"compromised"` in every other case. -/
theorem c1_integrity_status (hm : HierarchyManager) (now : Nat) :
    ((hm.getSystemIntegrityReport now).1.integrityStatus = "healthy" ↔
      (hm.mainChain.isChainValid = true ∧
        ∀ p ∈ hm.subChains, p.2.isChainValid = true)) ∧
    ((hm.getSystemIntegrityReport now).1.integrityStatus = "healthy" ∨
      (hm.getSystemIntegrityReport now).1.integrityStatus = "compromised") := by
  have hstat : (hm.getSystemIntegrityReport now).1.integrityStatus =
      if hm.checkSystemIntegrity then "healthy" else "compromised" := rfl
  by_cases h : hm.checkSystemIntegrity
  · rw [hstat, if_pos h]
    exact ⟨iff_of_true rfl ((checkSystemIntegrity_iff hm).mp h), Or.inl rfl⟩
  · rw [hstat, if_neg h]
    constructor
    · constructor
      · intro hc; exact absurd hc (by decide)
      · intro hvalid
        exact absurd ((checkSystemIntegrity_iff hm).mpr hvalid) h
    · exact Or.inr rfl

/-- Folding conditional appends equals an initial segment followed by a
`filterMap` (used for the dict-building loops of
`trace_entity_across_chains` and `validate_cross_chain_consistency`). -/
theorem foldl_ite_append_eq_filterMap (c : α → Bool) (g : α → β) :
    ∀ (l : List α) (init : List β),
      l.foldl (fun acc a => if c a then acc ++ [g a] else acc) init =
        init ++ l.filterMap fun a => if c a then some (g a) else none := by
  intro l
  induction l with
  | nil => simp
  | cons a rest ih =>
    intro init
    by_cases h : c a <;> simp [h, ih]

/-- A `filterMap` over a boolean guard is a `filter` followed by a
`map`. -/
theorem filterMap_ite_eq_map_filter (c : α → Bool) (g : α → β) (l : List α) :
    (l.filterMap fun a => if c a then some (g a) else none) =
      (l.filter c).map g := by
  induction l with
  | nil => rfl
  | cons a rest ih => by_cases h : c a <;> simp [h, ih]

/-- C3: `validate_cross_chain_consistency()` records a proof-consistency
entry for exactly the registered sub-chains whose chain has blocks beyond
the genesis, each entry being `MainChain.verify_proof(latest_block.hash,
name)`, and it leaves the manager (hence every chain) unchanged. -/
theorem c3_cross_chain_consistency (hm : HierarchyManager) (now : Nat) :
    ((hm.validateCrossChainConsistency now).2 = hm) ∧
    ((hm.validateCrossChainConsistency now).1.proofConsistency =
      hm.subChains.filterMap fun p =>
        if p.2.chain.length > 1 then
          some (p.1, hm.mainChain.verifyProof p.2.latestBlock.hash p.1)
        else none) := by
  refine ⟨rfl, ?_⟩
  have h := foldl_ite_append_eq_filterMap
    (fun p : String × SubChain => decide (p.2.chain.length > 1))
    (fun p : String × SubChain =>
      (p.1, hm.mainChain.verifyProof p.2.latestBlock.hash p.1))
    hm.subChains []
  simpa [HierarchyManager.validateCrossChainConsistency] using h

/-- C4 counterexample: a manager with the registered sub-chain `"alpha"`
(genesis only) traces an entity to the empty mapping — the registered
name does not appear among the keys, contradicting the claim that every
registered sub-chain appears in the result. -/
theorem c4_counterexample :
    hmOneChain.subChains.map Prod.fst = ["alpha"] ∧
    hmOneChain.traceEntityAcrossChains "e" = [] := by
  constructor <;> decide

/-- C4 (amended): `trace_entity_across_chains(entity_id)` returns the
mapping whose keys are exactly the registered sub-chains with a
non-empty event history for the entity, each mapped to that history. -/
theorem c4_trace_entity (hm : HierarchyManager) (entityId : String) :
    hm.traceEntityAcrossChains entityId =
      (hm.subChains.filter fun p => !(p.2.getEntityHistory entityId).isEmpty).map
        fun p => (p.1, p.2.getEntityHistory entityId) := by
  have h := foldl_ite_append_eq_filterMap
    (fun p : String × SubChain => !(p.2.getEntityHistory entityId).isEmpty)
    (fun p : String × SubChain => (p.1, p.2.getEntityHistory entityId))
    hm.subChains []
  have hbody : hm.traceEntityAcrossChains entityId =
      hm.subChains.foldl
        (fun acc p =>
          if !(p.2.getEntityHistory entityId).isEmpty then
            acc ++ [(p.1, p.2.getEntityHistory entityId)]
          else acc) [] := by
    unfold HierarchyManager.traceEntityAcrossChains
    congr 1
    funext acc p
    by_cases hres : (p.2.getEntityHistory entityId).isEmpty <;> simp [hres]
  rw [hbody, h, List.nil_append, filterMap_ite_eq_map_filter]

/-- C6: `create_sub_chain(name, domain_type, metadata)` on a name that is
already a key of the registry returns `False` and leaves the whole
manager state (registry and MainChain registered set) unchanged. -/
theorem c6_create_existing_name (hm : HierarchyManager)
    (name domainType : String) (now : Nat)
    (h : (lookupKey hm.subChains name).isSome = true) :
    hm.createSubChain name domainType now = (false, hm) := by
  simp [HierarchyManager.createSubChain, h]

/-- Witness for C6: re-creating the already registered name `"alpha"` on
the concrete manager `hmOneChain` fails and changes nothing. -/
theorem c6_witness :
    (lookupKey hmOneChain.subChains "alpha").isSome = true ∧
    hmOneChain.createSubChain "alpha" "finance" 2 = (false, hmOneChain) :=
  ⟨by decide, c6_create_existing_name hmOneChain "alpha" "finance" 2 (by decide)⟩

/-! ## SubChain lemmas for C2 and C5 -/

/-- After `finalize_sub_chain_block` the pending-event list is empty. -/
theorem finalize_pending_nil (sc : SubChain) (now : Nat) :
    (sc.finalizeSubChainBlock now).pendingEvents = [] := by
  cases h : sc.pendingEvents <;> simp [SubChain.finalizeSubChainBlock, h]

/-- `finalize_sub_chain_block` on a sub-chain with pending events cuts
exactly one block from them and clears the pending list. -/
theorem finalize_of_ne_nil (sc : SubChain) (now : Nat) (h : sc.pendingEvents ≠ []) :
    sc.finalizeSubChainBlock now =
      { sc with
        chain := sc.chain ++
          [createBlock eventHash sc.chain.length sc.latestBlock.hash now
            sc.pendingEvents],
        pendingEvents := [] } := by
  cases hp : sc.pendingEvents with
  | nil => exact absurd hp h
  | cons e es => simp [SubChain.finalizeSubChainBlock, hp]

/-- `submit_proof_to_main` never touches the pending-event list. -/
theorem submit_pending_eq (sc : SubChain) (mc : MainChain) :
    ((sc.submitProofToMain mc).2.1).pendingEvents = sc.pendingEvents := by
  unfold SubChain.submitProofToMain
  by_cases h : sc.lastProofIndex == some sc.latestBlock.index
  · simp [h]
  · rcases hadd : mc.addProof
      { subChainName := sc.name, proofHash := sc.latestBlock.hash,
        domainType := sc.domainType, latestBlockIndex := sc.latestBlock.index,
        totalBlocks := sc.chain.length } with ⟨b, mc'⟩
    cases b <;> simp [h, hadd]

/-- The step invariant of the `submit_all_proofs` loop: one result entry
and one registry entry per sub-chain (names preserved in order), the
success counter equals the number of `true` results, and every sub-chain
ends with an empty pending list. -/
theorem submitProofsLoop_spec (now : Nat) (scs : List (String × SubChain)) :
    ∀ mc : MainChain,
      (HierarchyManager.submitProofsLoop mc now scs).1.map Prod.fst = scs.map Prod.fst ∧
      (HierarchyManager.submitProofsLoop mc now scs).2.1.map Prod.fst = scs.map Prod.fst ∧
      (HierarchyManager.submitProofsLoop mc now scs).2.2.2 =
        ((HierarchyManager.submitProofsLoop mc now scs).1.filter fun q => q.2).length ∧
      ∀ p ∈ (HierarchyManager.submitProofsLoop mc now scs).2.1,
        p.2.pendingEvents = ([] : List Event) := by
  induction scs with
  | nil => intro mc; simp [HierarchyManager.submitProofsLoop]
  | cons p rest ih =>
    intro mc
    obtain ⟨n, sc⟩ := p
    have hsc1 :
        (if sc.pendingEvents.isEmpty then sc
         else sc.finalizeSubChainBlock now).pendingEvents = [] := by
      by_cases he : sc.pendingEvents.isEmpty
      · simpa [he] using List.isEmpty_iff.mp he
      · simp [he, finalize_pending_nil]
    have ih' := ih (((if sc.pendingEvents.isEmpty then sc
      else sc.finalizeSubChainBlock now).submitProofToMain mc)).2.2
    simp only [HierarchyManager.submitProofsLoop, List.map_cons]
    refine ⟨by rw [ih'.1], by rw [ih'.2.1], ?_, ?_⟩
    · rw [ih'.2.2.1]
      cases hr : ((if sc.pendingEvents.isEmpty then sc
        else sc.finalizeSubChainBlock now).submitProofToMain mc).1 <;>
        simp [hr, Nat.add_comm]
    · intro q hq
      rcases List.mem_cons.mp hq with hq1 | hq2
      · rw [hq1]
        rw [submit_pending_eq]
        exact hsc1
      · exact ih'.2.2.2 q hq2

/-- C5: `submit_all_proofs()` finalizes pending events on every
registered SubChain, returns exactly one boolean entry per registered
sub-chain name (in registry order), and increases `total_proofs` by
exactly the number of successful submissions. -/
theorem c5_submit_all_proofs (hm : HierarchyManager) (now : Nat) :
    ((hm.submitAllProofs now).1.map Prod.fst = hm.subChains.map Prod.fst) ∧
    ((hm.submitAllProofs now).2.subChains.map Prod.fst =
      hm.subChains.map Prod.fst) ∧
    ((hm.submitAllProofs now).2.totalProofs =
      hm.totalProofs + ((hm.submitAllProofs now).1.filter fun q => q.2).length) ∧
    (∀ p ∈ (hm.submitAllProofs now).2.subChains,
      p.2.pendingEvents = ([] : List Event)) := by
  have h := submitProofsLoop_spec now hm.subChains hm.mainChain
  exact ⟨h.1, h.2.1, congrArg (hm.totalProofs + ·) h.2.2.1, h.2.2.2⟩

/-- `submit_proof_to_main` on a sub-chain that is registered with the
MainChain and has committed a block since its last proof appends exactly
one proof-submission event and bumps `proof_count`. -/
theorem submit_success (sc : SubChain) (mc : MainChain)
    (hfresh : sc.lastProofIndex ≠ some sc.latestBlock.index)
    (hreg : sc.name ∈ mc.registered) :
    sc.submitProofToMain mc =
      (true, { sc with lastProofIndex := some sc.latestBlock.index },
        { mc with
          pendingEvents := mc.pendingEvents ++
            [{ subChainName := sc.name, proofHash := sc.latestBlock.hash,
               domainType := sc.domainType,
               latestBlockIndex := sc.latestBlock.index,
               totalBlocks := sc.chain.length }],
          proofCount := mc.proofCount + 1 }) := by
  have hb : (sc.lastProofIndex == some sc.latestBlock.index) = false :=
    beq_eq_false_iff_ne.mpr hfresh
  have ha : mc.addProof
      { subChainName := sc.name, proofHash := sc.latestBlock.hash,
        domainType := sc.domainType, latestBlockIndex := sc.latestBlock.index,
        totalBlocks := sc.chain.length } =
      (true,
        { mc with
          pendingEvents := mc.pendingEvents ++
            [{ subChainName := sc.name, proofHash := sc.latestBlock.hash,
               domainType := sc.domainType,
               latestBlockIndex := sc.latestBlock.index,
               totalBlocks := sc.chain.length }],
          proofCount := mc.proofCount + 1 }) := by
    simp [MainChain.addProof, hreg]
  simp only [SubChain.submitProofToMain, hb, Bool.false_eq_true, if_false, ha]

/-- C2 (amended): `remove_sub_chain(name)` returns `True` and deletes
the name from the registry exactly when the name is registered
(unregistered names return `False` and leave the whole state unchanged);
it finalizes and submits a last proof only when the sub-chain has pending
events — in that case, provided the sub-chain is registered with the
MainChain under its own name and has committed blocks since its last
proof, exactly one proof-submission event for it is appended and
`proof_count` grows by one; with no pending events the MainChain is left
untouched. -/
theorem c2_remove_sub_chain (hm : HierarchyManager) (name : String) (now : Nat) :
    (lookupKey hm.subChains name = none →
      hm.removeSubChain name now = (false, hm)) ∧
    (∀ sc, lookupKey hm.subChains name = some sc →
      (hm.removeSubChain name now).1 = true ∧
      (hm.removeSubChain name now).2.subChains = eraseKey hm.subChains name ∧
      (sc.pendingEvents = [] →
        (hm.removeSubChain name now).2.mainChain = hm.mainChain) ∧
      (sc.pendingEvents ≠ [] → sc.name ∈ hm.mainChain.registered →
        sc.lastProofIndex ≠ some sc.chain.length →
        (hm.removeSubChain name now).2.mainChain.proofCount =
          hm.mainChain.proofCount + 1 ∧
        ∃ p : ProofEvent,
          (hm.removeSubChain name now).2.mainChain.pendingEvents =
            hm.mainChain.pendingEvents ++ [p] ∧
          p.subChainName = sc.name)) := by
  constructor
  · intro h
    simp [HierarchyManager.removeSubChain, h]
  · intro sc hlk
    have hred : hm.removeSubChain name now =
        (true,
          { hm with
            mainChain :=
              if sc.pendingEvents.isEmpty then hm.mainChain
              else ((sc.finalizeSubChainBlock now).submitProofToMain
                hm.mainChain).2.2,
            subChains := eraseKey hm.subChains name }) := by
      simp [HierarchyManager.removeSubChain, hlk]
    refine ⟨by rw [hred], by rw [hred], ?_, ?_⟩
    · intro hnil
      rw [hred]
      simp [hnil]
    · intro hne hreg hfresh
      have hie : sc.pendingEvents.isEmpty = false :=
        List.isEmpty_eq_false.mpr hne
      have hfin := finalize_of_ne_nil sc now hne
      have hlatest : (sc.finalizeSubChainBlock now).latestBlock =
          createBlock eventHash sc.chain.length sc.latestBlock.hash now
            sc.pendingEvents := by
        rw [hfin]
        simp [SubChain.latestBlock, List.getLastD_concat]
      have hlpi : (sc.finalizeSubChainBlock now).lastProofIndex =
          sc.lastProofIndex := by rw [hfin]
      have hname : (sc.finalizeSubChainBlock now).name = sc.name := by rw [hfin]
      have hfresh' : (sc.finalizeSubChainBlock now).lastProofIndex ≠
          some (sc.finalizeSubChainBlock now).latestBlock.index := by
        rw [hlpi, hlatest]
        exact hfresh
      have hreg' : (sc.finalizeSubChainBlock now).name ∈
          hm.mainChain.registered := by
        rw [hname]; exact hreg
      have hsub := submit_success (sc.finalizeSubChainBlock now) hm.mainChain
        hfresh' hreg'
      rw [hred]
      simp only [hie, Bool.false_eq_true, if_false, hsub]
      exact ⟨trivial, _, rfl, hname⟩

/-- C2 counterexample: on the concrete manager `hmOneChain` the
registered sub-chain `"alpha"` has no pending events; `remove_sub_chain`
deletes it and returns `True`, yet the MainChain is left exactly as it
was — no block is finalized and no last proof is submitted, contradicting
the claim that removal always submits a last proof. -/
theorem c2_counterexample :
    (lookupKey hmOneChain.subChains "alpha").isSome = true ∧
    (hmOneChain.removeSubChain "alpha" 2).1 = true ∧
    (hmOneChain.removeSubChain "alpha" 2).2.mainChain = hmOneChain.mainChain ∧
    hmOneChain.mainChain.pendingEvents = [] ∧
    hmOneChain.mainChain.proofCount = 0 := by
  refine ⟨by decide, by decide, by decide, by decide, by decide⟩

/-- Witness for C2 on the concrete manager `hmPendingChain`, whose
sub-chain has a pending event: removal succeeds and one proof reaches the
MainChain. -/
theorem c2_witness :
    (hmPendingChain.removeSubChain "alpha" 3).1 = true ∧
    (hmPendingChain.removeSubChain "alpha" 3).2.mainChain.proofCount =
      hmPendingChain.mainChain.proofCount + 1 :=
  have h := (c2_remove_sub_chain hmPendingChain "alpha" 3).2 scAlphaPending
    (by decide)
  ⟨h.1, (h.2.2.2 (by decide) (by decide) (by decide)).1⟩

end HieraChain
